import Mathlib

/-!
Formal model of the quantum-resistant secure-channel subsystem of the
Hybrid_BC_System repository: the `QuantumKeyDistribution` engine
(src/quantum/key_distribution/quantum_key_distribution.py) and the
`PostQuantumCrypto` engine (src/quantum/encryption/post_quantum_crypto.py).

Modelling conventions:
* Python `str` is Lean `String`; Python `bytes` is `List Nat` (entries < 256).
* Timestamps (`time.time()`) are `Int` seconds passed explicitly to each
  operation; rates and thresholds are `ℚ`.
* `hashlib.sha256` / `hashlib.sha512` are embedded as executable functions.
* Randomness (`random.randint`, `random.uniform`, `os.urandom`,
  `secrets.token_hex`) is passed in as explicit oracle inputs.
-/

set_option maxRecDepth 100000

namespace HybridBC

/-- UTF-8 encoding of a single character (one step of Python `str.encode`). -/
def utf8Char (c : Char) : List Nat :=
  let n := c.toNat
  if n < 128 then [n]
  else if n < 2048 then [192 + n / 64, 128 + n % 64]
  else if n < 65536 then [224 + n / 4096, 128 + n / 64 % 64, 128 + n % 64]
  else [240 + n / 262144, 128 + n / 4096 % 64, 128 + n / 64 % 64, 128 + n % 64]

/-- Python `s.encode('utf-8')` as a byte list. -/
def encodeStr (s : String) : List Nat :=
  (s.data.map utf8Char).flatten

/-- Lower-case hexadecimal digit, as produced by Python `hex`/`hexdigest`. -/
def hexDigitChar (n : Nat) : Char :=
  if n < 10 then Char.ofNat (48 + n) else Char.ofNat (87 + n)

/-- Python `bytes.hex()`: two lower-case hex digits per byte. -/
def bytesToHexStr (bs : List Nat) : String :=
  ⟨(bs.map (fun b => [hexDigitChar (b / 16), hexDigitChar (b % 16)])).flatten⟩

/-- Big-endian encoding of `n` in exactly `k` bytes (higher bytes dropped mod 2^(8k)). -/
def natToBytesBE : Nat → Nat → List Nat
  | 0, _ => []
  | k + 1, n => natToBytesBE k (n / 256) ++ [n % 256]

/-- SHA message padding shared by SHA-256 (`block = 64`, `lenBytes = 8`) and
SHA-512 (`block = 128`, `lenBytes = 16`): append `0x80`, zero bytes, and the
message bit length big-endian, reaching a multiple of `block` bytes. -/
def shaPad (block lenBytes : Nat) (msg : List Nat) : List Nat :=
  let l := msg.length
  let zeros := (block - (l + 1 + lenBytes) % block) % block
  msg ++ [128] ++ List.replicate zeros 0 ++ natToBytesBE lenBytes (8 * l)

/-- Group bytes into big-endian 32-bit words. -/
def bytesToWords32 : List Nat → List Nat
  | b0 :: b1 :: b2 :: b3 :: t => (((b0 * 256 + b1) * 256 + b2) * 256 + b3) :: bytesToWords32 t
  | _ => []

/-- Group a word list into blocks of 16 words. -/
def blocks16 : List Nat → List (List Nat)
  | a0 :: a1 :: a2 :: a3 :: a4 :: a5 :: a6 :: a7 ::
    a8 :: a9 :: a10 :: a11 :: a12 :: a13 :: a14 :: a15 :: t =>
      [a0, a1, a2, a3, a4, a5, a6, a7, a8, a9, a10, a11, a12, a13, a14, a15] :: blocks16 t
  | _ => []

/-- `2 ^ 32`. -/
def w32 : Nat := 4294967296

/-- 32-bit right rotation (inputs assumed `< 2 ^ 32`). -/
def rotr32 (n x : Nat) : Nat := ((x >>> n) ||| (x <<< (32 - n))) % w32

def ssig0 (x : Nat) : Nat := (rotr32 7 x) ^^^ (rotr32 18 x) ^^^ (x >>> 3)

def ssig1 (x : Nat) : Nat := (rotr32 17 x) ^^^ (rotr32 19 x) ^^^ (x >>> 10)

def bsig0 (x : Nat) : Nat := (rotr32 2 x) ^^^ (rotr32 13 x) ^^^ (rotr32 22 x)

def bsig1 (x : Nat) : Nat := (rotr32 6 x) ^^^ (rotr32 11 x) ^^^ (rotr32 25 x)

/-- Extend a 16-word block by `fuel` further schedule words (SHA-256). -/
def sched256 : Nat → List Nat → List Nat
  | 0, w => w
  | k + 1, w =>
    let i := w.length
    sched256 k (w ++ [(ssig1 (w.getD (i - 2) 0) + w.getD (i - 7) 0 +
      ssig0 (w.getD (i - 15) 0) + w.getD (i - 16) 0) % w32])

/-- The eight-word working state of SHA-256/SHA-512. -/
structure Words8 where
  a : Nat
  b : Nat
  c : Nat
  d : Nat
  e : Nat
  f : Nat
  g : Nat
  h : Nat

/-- One SHA-256 compression round with round constant `k` and schedule word `w`. -/
def round256 (k w : Nat) (s : Words8) : Words8 :=
  let ch := (s.e &&& s.f) ^^^ ((4294967295 ^^^ s.e) &&& s.g)
  let maj := (s.a &&& s.b) ^^^ (s.a &&& s.c) ^^^ (s.b &&& s.c)
  let t1 := (s.h + bsig1 s.e + ch + k + w) % w32
  let t2 := (bsig0 s.a + maj) % w32
  ⟨(t1 + t2) % w32, s.a, s.b, s.c, (s.d + t1) % w32, s.e, s.f, s.g⟩

/-- Run rounds for paired constant/schedule lists. -/
def rounds256 : List Nat → List Nat → Words8 → Words8
  | k :: ks, w :: ws, s => rounds256 ks ws (round256 k w s)
  | _, _, s => s

/-- SHA-256 round constants. -/
def K256 : List Nat :=
  [1116352408, 1899447441, 3049323471, 3921009573, 961987163, 1508970993,
   2453635748, 2870763221, 3624381080, 310598401, 607225278, 1426881987,
   1925078388, 2162078206, 2614888103, 3248222580, 3835390401, 4022224774,
   264347078, 604807628, 770255983, 1249150122, 1555081692, 1996064986,
   2554220882, 2821834349, 2952996808, 3210313671, 3336571891, 3584528711,
   113926993, 338241895, 666307205, 773529912, 1294757372, 1396182291,
   1695183700, 1986661051, 2177026350, 2456956037, 2730485921, 2820302411,
   3259730800, 3345764771, 3516065817, 3600352804, 4094571909, 275423344,
   430227734, 506948616, 659060556, 883997877, 958139571, 1322822218,
   1537002063, 1747873779, 1955562222, 2024104815, 2227730452, 2361852424,
   2428436474, 2756734187, 3204031479, 3329325298]

/-- SHA-256 initial hash value. -/
def initH256 : Words8 :=
  ⟨1779033703, 3144134277, 1013904242, 2773480762, 1359893119, 2600822924,
   528734635, 1541459225⟩

/-- Compress one 16-word block into the running state. -/
def compress256 (s : Words8) (blk : List Nat) : Words8 :=
  let w := sched256 48 blk
  let r := rounds256 K256 w s
  ⟨(s.a + r.a) % w32, (s.b + r.b) % w32, (s.c + r.c) % w32, (s.d + r.d) % w32,
   (s.e + r.e) % w32, (s.f + r.f) % w32, (s.g + r.g) % w32, (s.h + r.h) % w32⟩

/-- Big-endian bytes of a 32-bit word. -/
def word32Bytes (x : Nat) : List Nat :=
  [x / 16777216 % 256, x / 65536 % 256, x / 256 % 256, x % 256]

/-- `hashlib.sha256(msg).digest()` as a list of 32 bytes. -/
def sha256 (msg : List Nat) : List Nat :=
  let r := (blocks16 (bytesToWords32 (shaPad 64 8 msg))).foldl compress256 initH256
  word32Bytes r.a ++ word32Bytes r.b ++ word32Bytes r.c ++ word32Bytes r.d ++
  word32Bytes r.e ++ word32Bytes r.f ++ word32Bytes r.g ++ word32Bytes r.h

/-- `hashlib.sha256(msg).hexdigest()`. -/
def sha256hex (msg : List Nat) : String := bytesToHexStr (sha256 msg)

/-- `2 ^ 64`. -/
def w64 : Nat := 18446744073709551616

/-- 64-bit right rotation (inputs assumed `< 2 ^ 64`). -/
def rotr64 (n x : Nat) : Nat := ((x >>> n) ||| (x <<< (64 - n))) % w64

def ssig0x (x : Nat) : Nat := (rotr64 1 x) ^^^ (rotr64 8 x) ^^^ (x >>> 7)

def ssig1x (x : Nat) : Nat := (rotr64 19 x) ^^^ (rotr64 61 x) ^^^ (x >>> 6)

def bsig0x (x : Nat) : Nat := (rotr64 28 x) ^^^ (rotr64 34 x) ^^^ (rotr64 39 x)

def bsig1x (x : Nat) : Nat := (rotr64 14 x) ^^^ (rotr64 18 x) ^^^ (rotr64 41 x)

/-- Group bytes into big-endian 64-bit words. -/
def bytesToWords64 : List Nat → List Nat
  | b0 :: b1 :: b2 :: b3 :: b4 :: b5 :: b6 :: b7 :: t =>
      (((((((b0 * 256 + b1) * 256 + b2) * 256 + b3) * 256 + b4) * 256 + b5) * 256 + b6)
        * 256 + b7) :: bytesToWords64 t
  | _ => []

/-- Extend a 16-word block by `fuel` further schedule words (SHA-512). -/
def sched512 : Nat → List Nat → List Nat
  | 0, w => w
  | k + 1, w =>
    let i := w.length
    sched512 k (w ++ [(ssig1x (w.getD (i - 2) 0) + w.getD (i - 7) 0 +
      ssig0x (w.getD (i - 15) 0) + w.getD (i - 16) 0) % w64])

/-- One SHA-512 compression round with round constant `k` and schedule word `w`. -/
def round512 (k w : Nat) (s : Words8) : Words8 :=
  let ch := (s.e &&& s.f) ^^^ ((18446744073709551615 ^^^ s.e) &&& s.g)
  let maj := (s.a &&& s.b) ^^^ (s.a &&& s.c) ^^^ (s.b &&& s.c)
  let t1 := (s.h + bsig1x s.e + ch + k + w) % w64
  let t2 := (bsig0x s.a + maj) % w64
  ⟨(t1 + t2) % w64, s.a, s.b, s.c, (s.d + t1) % w64, s.e, s.f, s.g⟩

/-- Run SHA-512 rounds for paired constant/schedule lists. -/
def rounds512 : List Nat → List Nat → Words8 → Words8
  | k :: ks, w :: ws, s => rounds512 ks ws (round512 k w s)
  | _, _, s => s

/-- SHA-512 round constants. -/
def K512 : List Nat :=
  [4794697086780616226, 8158064640168781261, 13096744586834688815,
   16840607885511220156, 4131703408338449720, 6480981068601479193,
   10538285296894168987, 12329834152419229976, 15566598209576043074,
   1334009975649890238, 2608012711638119052, 6128411473006802146,
   8268148722764581231, 9286055187155687089, 11230858885718282805,
   13951009754708518548, 16472876342353939154, 17275323862435702243,
   1135362057144423861, 2597628984639134821, 3308224258029322869,
   5365058923640841347, 6679025012923562964, 8573033837759648693,
   10970295158949994411, 12119686244451234320, 12683024718118986047,
   13788192230050041572, 14330467153632333762, 15395433587784984357,
   489312712824947311, 1452737877330783856, 2861767655752347644,
   3322285676063803686, 5560940570517711597, 5996557281743188959,
   7280758554555802590, 8532644243296465576, 9350256976987008742,
   10552545826968843579, 11727347734174303076, 12113106623233404929,
   14000437183269869457, 14369950271660146224, 15101387698204529176,
   15463397548674623760, 17586052441742319658, 1182934255886127544,
   1847814050463011016, 2177327727835720531, 2830643537854262169,
   3796741975233480872, 4115178125766777443, 5681478168544905931,
   6601373596472566643, 7507060721942968483, 8399075790359081724,
   8693463985226723168, 9568029438360202098, 10144078919501101548,
   10430055236837252648, 11840083180663258601, 13761210420658862357,
   14299343276471374635, 14566680578165727644, 15097957966210449927,
   16922976911328602910, 17689382322260857208, 500013540394364858,
   748580250866718886, 1242879168328830382, 1977374033974150939,
   2944078676154940804, 3659926193048069267, 4368137639120453308,
   4836135668995329356, 5532061633213252278, 6448918945643986474,
   6902733635092675308, 7801388544844847127]

/-- SHA-512 initial hash value. -/
def initH512 : Words8 :=
  ⟨7640891576956012808, 13503953896175478587, 4354685564936845355,
   11912009170470909681, 5840696475078001361, 11170449401992604703,
   2270897969802886507, 6620516959819538809⟩

/-- Compress one 16-word block into the running SHA-512 state. -/
def compress512 (s : Words8) (blk : List Nat) : Words8 :=
  let w := sched512 64 blk
  let r := rounds512 K512 w s
  ⟨(s.a + r.a) % w64, (s.b + r.b) % w64, (s.c + r.c) % w64, (s.d + r.d) % w64,
   (s.e + r.e) % w64, (s.f + r.f) % w64, (s.g + r.g) % w64, (s.h + r.h) % w64⟩

/-- Big-endian bytes of a 64-bit word. -/
def word64Bytes (x : Nat) : List Nat :=
  [x / 72057594037927936 % 256, x / 281474976710656 % 256, x / 1099511627776 % 256,
   x / 4294967296 % 256, x / 16777216 % 256, x / 65536 % 256, x / 256 % 256, x % 256]

/-- `hashlib.sha512(msg).digest()` as a list of 64 bytes. -/
def sha512 (msg : List Nat) : List Nat :=
  let r := (blocks16 (bytesToWords64 (shaPad 128 16 msg))).foldl compress512 initH512
  word64Bytes r.a ++ word64Bytes r.b ++ word64Bytes r.c ++ word64Bytes r.d ++
  word64Bytes r.e ++ word64Bytes r.f ++ word64Bytes r.g ++ word64Bytes r.h

/-- `hashlib.sha512(msg).hexdigest()`. -/
def sha512hex (msg : List Nat) : String := bytesToHexStr (sha512 msg)

/-! ## Generic Python dict model (insertion-ordered association list) -/

/-- Python dict assignment `d[k] = v`: replace in place if the key is present,
else append at the end (insertion order). -/
def dictInsert {α : Type} (k : String) (v : α) : List (String × α) → List (String × α)
  | [] => [(k, v)]
  | (q, w) :: t => if q = k then (k, v) :: t else (q, w) :: dictInsert k v t

/-- Python `d[k]` / `k in d`: first (unique) binding of `k`. -/
def dictLookup {α : Type} (k : String) : List (String × α) → Option α
  | [] => none
  | (q, w) :: t => if q = k then some w else dictLookup k t

/-! ## Post-quantum primitive engine (`PostQuantumCrypto`) -/

/-- `PostQuantumCrypto.simulated_keys`: entity id ↦ (public key, private key),
in Python dict insertion order. -/
abbrev PQCKeystore : Type := List (String × String × String)

/-- `PostQuantumCrypto.generate_keypair`: the private key is
`secrets.token_hex(key_size // 8)` — the hex encoding of the drawn random
bytes `rand` — and the public key is
`sha256((private_key + entity_id).encode()).hexdigest()`; the pair is stored
in the keystore under `entity_id`. -/
def generate_keypair (keys : PQCKeystore) (entityId : String) (rand : List Nat) :
    (String × String) × PQCKeystore :=
  let privateKey := bytesToHexStr rand
  let publicKey := sha256hex (encodeStr (privateKey ++ entityId))
  ((publicKey, privateKey), dictInsert entityId (publicKey, privateKey) keys)

/-- `PostQuantumCrypto.sign` on byte data:
`sha512((private_key + data_bytes.hex()).encode()).hexdigest()`. -/
def sign (data : List Nat) (privateKey : String) : String :=
  sha512hex (encodeStr (privateKey ++ bytesToHexStr data))

/-- The keystore scan inside `verify`: the private key of the first entity
(in dict iteration = insertion order) whose public key equals `pk`. -/
def findPrivByPk (pk : String) : PQCKeystore → Option String
  | [] => none
  | (_, p, s) :: t => if p = pk then some s else findPrivByPk pk t

/-- `PostQuantumCrypto.verify`: looks the public key up in the keystore,
retrieves the matching *private* key, recomputes the signature with it and
compares; returns `false` when the public key is not stored. -/
def verify (keys : PQCKeystore) (data : List Nat) (signature pk : String) : Bool :=
  match findPrivByPk pk keys with
  | none => false
  | some sk => signature == sha512hex (encodeStr (sk ++ bytesToHexStr data))

/-- `PostQuantumCrypto.key_encapsulation`: `shared_secret = os.urandom(32)`
(the oracle input `rand`) and
`encapsulated_key = sha256((public_key + shared_secret.hex()).encode()).digest()`. -/
def key_encapsulation (publicKey : String) (rand : List Nat) : List Nat × List Nat :=
  (rand, sha256 (encodeStr (publicKey ++ bytesToHexStr rand)))

/-- `PostQuantumCrypto.key_decapsulation`:
`sha256((private_key + encapsulated_key.hex()).encode()).digest()`. -/
def key_decapsulation (encapsulatedKey : List Nat) (privateKey : String) : List Nat :=
  sha256 (encodeStr (privateKey ++ bytesToHexStr encapsulatedKey))

/-! ## Quantum key distribution engine (`QuantumKeyDistribution`) -/

/-- QKD configuration (`refresh_interval_minutes`, default 60). -/
structure QKDConfig where
  refresh_interval_minutes : Int

/-- `self.refresh_interval = config.get('refresh_interval_minutes', 60) * 60`. -/
def QKDConfig.refreshInterval (c : QKDConfig) : Int := c.refresh_interval_minutes * 60

/-- A record of `self.key_store`. -/
structure KeyRecord where
  keyId : String
  key : String
  establishedAt : Int
  bitLength : Nat
  errorRate : ℚ
  deriving DecidableEq

/-- State of the `QuantumKeyDistribution` engine: `self.key_store` and
`self.last_refresh`, both Python dicts keyed by `f"{entity1_id}:{entity2_id}"`. -/
structure QKDState where
  keyStore : List (String × KeyRecord)
  lastRefresh : List (String × Int)
  deriving DecidableEq

/-- A freshly constructed engine: both dicts empty. -/
def initQKD : QKDState := ⟨[], []⟩

/-- Oracle for the randomness one `establish_key` call draws: `rawBits` and
`aliceBases` are the `_simulate_quantum_channel` streams, `bobBases` Bob's
basis choices, `errRate` the `random.uniform(0.01, 0.1)` sample, `padBits`
the random padding bits, and `timeRepr` the decimal rendering of the
`time.time()` value interpolated into the key-id hash input. -/
structure ChannelSample where
  rawBits : Nat → Bool
  aliceBases : Nat → Bool
  bobBases : Nat → Bool
  errRate : ℚ
  padBits : Nat → Bool
  timeRepr : String

/-- `key_pair_id = f"{entity1_id}:{entity2_id}"`. -/
def pairKey (e1 e2 : String) : String := e1 ++ ":" ++ e2

/-- `int(bit_string, 2)` for a bit list, most significant bit first. -/
def bitsToNat (l : List Bool) : Nat := l.foldl (fun a b => 2 * a + cond b 1 0) 0

/-- Digits of `hex(n)[2:]` (no leading zeros, empty for 0), with fuel. -/
def natToHexAux : Nat → Nat → List Char
  | 0, _ => []
  | fuel + 1, n => if n = 0 then [] else natToHexAux fuel (n / 16) ++ [hexDigitChar (n % 16)]

/-- Python `hex(n)[2:]`: minimal lower-case hex, `"0"` for zero. -/
def natToHexMin (n : Nat) : String := if n = 0 then "0" else ⟨natToHexAux n n⟩

/-- Python `str.zfill(k)`: left-pad with `'0'` up to length `k`. -/
def zfill (s : String) (k : Nat) : String :=
  ⟨List.replicate (k - s.data.length) '0' ++ s.data⟩

/-- The sifted key: the raw bits (of the `bit_length * 2` the channel carried)
at positions where Alice's and Bob's bases agree. -/
def siftedBits (bitLength : Nat) (s : ChannelSample) : List Bool :=
  (((List.range (bitLength * 2)).filter (fun i => s.aliceBases i == s.bobBases i)).map
    s.rawBits)

/-- The final key bits: the first `bit_length` sifted bits, padded with fresh
random bits when the sifted key is too short. -/
def finalKeyBits (bitLength : Nat) (s : ChannelSample) : List Bool :=
  let sifted := siftedBits bitLength s
  if bitLength ≤ sifted.length then sifted.take bitLength
  else sifted ++ (List.range (bitLength - sifted.length)).map s.padBits

/-- `hex_key = hex(int(final_key, 2))[2:].zfill(bit_length // 4)`. -/
def hexKeyOf (bitLength : Nat) (s : ChannelSample) : String :=
  zfill (natToHexMin (bitsToNat (finalKeyBits bitLength s))) (bitLength / 4)

/-- `key_id = sha256(f"{entity1_id}:{entity2_id}:{time.time()}").hexdigest()[:16]`. -/
def keyIdOf (e1 e2 : String) (s : ChannelSample) : String :=
  ⟨(sha256hex (encodeStr (e1 ++ ":" ++ e2 ++ ":" ++ s.timeRepr))).data.take 16⟩

/-- The shared-key record a successful `establish_key` stores. -/
def builtRecord (e1 e2 : String) (bitLength : Nat) (s : ChannelSample) (now : Int) :
    KeyRecord :=
  ⟨keyIdOf e1 e2 s, hexKeyOf bitLength s, now, bitLength, s.errRate⟩

/-- `QuantumKeyDistribution.establish_key`. Returns the `key_id` — `""` on
abort or exception — and the updated state. The quantum channel produces
`bit_length * 2` raw bits and bases; sifting keeps positions with matching
bases; an error rate above 0.15 aborts before any store mutation; short
sifted keys are padded with fresh random bits; `bit_length = 0` models the
`ValueError` from `int('', 2)`, caught and reported as `""` with no
mutation. -/
def establish_key (st : QKDState) (e1 e2 : String) (bitLength : Nat)
    (s : ChannelSample) (now : Int) : String × QKDState :=
  if s.errRate > mkRat 15 100 then ("", st)
  else if bitLength = 0 then ("", st)
  else
    (keyIdOf e1 e2 s,
     ⟨dictInsert (pairKey e1 e2) (builtRecord e1 e2 bitLength s now) st.keyStore,
      dictInsert (pairKey e1 e2) now st.lastRefresh⟩)

/-- `QuantumKeyDistribution.get_shared_key`: try both orderings of the pair,
then report absence if the last-refresh timestamp is older than the refresh
interval; otherwise return the stored key material. -/
def get_shared_key (cfg : QKDConfig) (st : QKDState) (e1 e2 : String) (now : Int) :
    Option String :=
  let k1 := pairKey e1 e2
  let k2 := pairKey e2 e1
  let active :=
    if (dictLookup k1 st.keyStore).isSome then some k1
    else if (dictLookup k2 st.keyStore).isSome then some k2
    else none
  match active with
  | none => none
  | some k =>
    match dictLookup k st.lastRefresh with
    | some t =>
      if now - t > cfg.refreshInterval then none
      else (dictLookup k st.keyStore).map (fun r => r.key)
    | none => (dictLookup k st.keyStore).map (fun r => r.key)

/-- `QuantumKeyDistribution.check_for_eavesdropping`: read the stored error
rate (trying both orderings; absent pair gives `(False, 0.0)`) and compare
with the 0.12 threshold, with linearly scaled clamped confidence. -/
def check_for_eavesdropping (st : QKDState) (e1 e2 : String) : Bool × ℚ :=
  let found :=
    match dictLookup (pairKey e1 e2) st.keyStore with
    | some r => some r
    | none => dictLookup (pairKey e2 e1) st.keyStore
  match found with
  | none => (false, mkRat 0 1)
  | some r =>
    if r.errorRate > mkRat 12 100 then
      (true, min (mkRat 1 1) ((r.errorRate - mkRat 12 100) * mkRat 10 1))
    else (false, min (mkRat 1 1) ((mkRat 12 100 - r.errorRate) * mkRat 10 1))

/-- Python `s.split(':')` on the underlying character list. -/
def splitColonAux : List Char → List (List Char)
  | [] => [[]]
  | c :: t =>
    let r := splitColonAux t
    if c = ':' then [] :: r
    else
      match r with
      | h :: t2 => (c :: h) :: t2
      | [] => [[c]]

/-- Python `key_pair_id.split(':')`. -/
def splitColon (s : String) : List String :=
  (splitColonAux s.data).map (fun l => (⟨l⟩ : String))

/-- One iteration of the `refresh_keys` loop. `none` models an uncaught
exception escaping `refresh_keys` (which has no `try`): the `ValueError`
when `split(':')` does not yield exactly two parts, or a `KeyError` on
`key_store`. -/
def refreshOne (now : Int) (s : ChannelSample) (st : QKDState)
    (k : String) : Option QKDState :=
  match splitColon k with
  | [e1, e2] =>
    match dictLookup k st.keyStore with
    | some r => some (establish_key st e1 e2 r.bitLength s now).2
    | none => none
  | _ => none

/-- The `refresh_keys` loop over the due pairs, the `i`-th re-establishment
drawing the `i`-th oracle sample. -/
def refreshList (now : Int) (oracle : Nat → ChannelSample) :
    List String → Nat → QKDState → Option QKDState
  | [], _, st => some st
  | k :: ks, i, st =>
    match refreshOne now (oracle i) st k with
    | some st2 => refreshList now oracle ks (i + 1) st2
    | none => none

/-- `QuantumKeyDistribution.refresh_keys`: re-establish every pair whose
last-refresh timestamp is older than the refresh interval. -/
def refresh_keys (cfg : QKDConfig) (st : QKDState) (now : Int)
    (oracle : Nat → ChannelSample) : Option QKDState :=
  let due := (st.lastRefresh.filter (fun p => decide (now - p.2 > cfg.refreshInterval))).map
    Prod.fst
  refreshList now oracle due 0 st

/-- What `random.uniform(0.01, 0.1)` guarantees about the drawn channel error
rate of a sample. -/
def ValidErrRate (s : ChannelSample) : Prop := mkRat 1 100 ≤ s.errRate ∧ s.errRate ≤ mkRat 1 10

/-- KDP engine states reachable from a fresh engine by `establish_key` and
successful `refresh_keys` calls, every channel sample drawn as the code draws
it (`ValidErrRate`); `get_shared_key` and `check_for_eavesdropping` do not
modify state. -/
inductive Reachable (cfg : QKDConfig) : QKDState → Prop
  | init : Reachable cfg initQKD
  | establish {st : QKDState} {e1 e2 : String} {bitLength : Nat} {s : ChannelSample}
      {now : Int} : Reachable cfg st → ValidErrRate s →
      Reachable cfg (establish_key st e1 e2 bitLength s now).2
  | refresh {st : QKDState} {now : Int} {oracle : Nat → ChannelSample} {st2 : QKDState} :
      Reachable cfg st → (∀ i, ValidErrRate (oracle i)) →
      refresh_keys cfg st now oracle = some st2 → Reachable cfg st2

/-! ## Concrete fixtures for counterexamples and witnesses -/

/-- Default configuration: `refresh_interval_minutes = 60`, interval 3600 s. -/
def cfg60 : QKDConfig := ⟨60⟩

/-- A channel draw with all bits zero, coinciding bases and a 5% error rate. -/
def sampleZero : ChannelSample :=
  ⟨fun _ => false, fun _ => false, fun _ => false, mkRat 1 20, fun _ => false, "1700000000.0"⟩

/-- A channel draw with all bits one, coinciding bases and a 5% error rate. -/
def sampleOnes : ChannelSample :=
  ⟨fun _ => true, fun _ => false, fun _ => false, mkRat 1 20, fun _ => true, "1700000000.5"⟩

/-- A (hypothetical) channel draw whose error rate 0.2 exceeds the 0.15
abort threshold. -/
def sampleAbort : ChannelSample :=
  ⟨fun _ => false, fun _ => false, fun _ => false, mkRat 1 5, fun _ => false, "1700000001.0"⟩

/-- A concrete shared-key record (established at t = 100 s). -/
def recW : KeyRecord := ⟨"id", "beef", 100, 16, mkRat 1 20⟩

/-- A concrete engine state holding `recW` for the pair `("a", "b")`. -/
def stW : QKDState := ⟨[("a:b", recW)], [("a:b", 100)]⟩

/-- A character of a lower-case hexadecimal rendering. -/
def IsHexChar (c : Char) : Prop := c ∈ "0123456789abcdef".data

instance (c : Char) : Decidable (IsHexChar c) := by
  unfold IsHexChar
  infer_instance

/-- FIPS 180-4 test vector for the SHA-256 embedding. -/
theorem sha256_test_vector :
    sha256hex (encodeStr "abc") =
      "ba7816bf8f01cfea414140de5dae2223b00361a396177a9cb410ff61f20015ad" := by
  decide

/-- FIPS 180-4 test vector for the SHA-512 embedding. -/
theorem sha512_test_vector :
    sha512hex (encodeStr "abc") =
      "ddaf35a193617abacc417349ae20413112e6fa4e89a97ea20a9eeee64b55d39a2192992a274fc1a836ba3c23a3feebbd454d4423643ce80e2a9ac94fa54ca49f" := by
  decide

/-- C1: the KEM round trip fails on the code. For the keypair generated for
entity `"a"` from the random byte `0x00` and encapsulation randomness of 32
zero bytes, `key_decapsulation` applied to the encapsulated key and the
private key does not return the shared secret `key_encapsulation` produced:
decapsulation derives an unrelated hash of its inputs. -/
theorem C1_kem_roundtrip_fails :
    key_decapsulation
        (key_encapsulation (generate_keypair [] "a" [0]).1.1 (List.replicate 32 0)).2
        (generate_keypair [] "a" [0]).1.2 ≠
      (key_encapsulation (generate_keypair [] "a" [0]).1.1 (List.replicate 32 0)).1 := by
  decide

/-- C2: the result of `verify` is not determined by its three arguments. For
the fixed triple (data `[0x01]`, the genuine signature, the public key of the
keypair generated for `"a"`), `verify` answers `true` in the keystore state
holding that keypair and `false` in the empty keystore state — the accepting
run reads the stored *private* key. -/
theorem C2_verify_depends_on_keystore :
    verify (generate_keypair [] "a" [0]).2 [1]
        (sign [1] (generate_keypair [] "a" [0]).1.2) (generate_keypair [] "a" [0]).1.1 = true ∧
    verify [] [1]
        (sign [1] (generate_keypair [] "a" [0]).1.2) (generate_keypair [] "a" [0]).1.1
      = false := by
  decide

/-- C7: when the sampled channel error rate exceeds 0.15, `establish_key`
returns the explicit failure marker `""` and the state — key store and
refresh-timestamp map — is exactly the input state: no record is created or
replaced. -/
theorem C7_abort_leaves_state_unchanged (st : QKDState) (e1 e2 : String)
    (bitLength : Nat) (s : ChannelSample) (now : Int) (h : s.errRate > mkRat 15 100) :
    establish_key st e1 e2 bitLength s now = ("", st) := by
  simp [establish_key, h]

/-- Witness for C7 at a concrete input with error rate 0.2. -/
theorem C7_witness :
    sampleAbort.errRate > mkRat 15 100 ∧
    establish_key initQKD "a" "b" 1024 sampleAbort 0 = ("", initQKD) :=
  ⟨by decide, C7_abort_leaves_state_unchanged initQKD "a" "b" 1024 sampleAbort 0 (by decide)⟩

/-- C4 counterexample: after establishing the pair in both orders, the key
store holds two simultaneously live records for the unordered pair `{a, b}`
(one under `"a:b"`, one under `"b:a"`), refuting the at-most-one-live-record
invariant for unordered pairs. -/
theorem C4_unordered_pair_counterexample :
    ((establish_key (establish_key initQKD "a" "b" 4 sampleZero 0).2
        "b" "a" 4 sampleOnes 0).2.keyStore.filter
      (fun p => (p.1 == pairKey "a" "b" || p.1 == pairKey "b" "a") &&
        decide ((0 : Int) - p.2.establishedAt ≤ cfg60.refreshInterval))).length = 2 := by
  decide

/-- C5 counterexample: in the (reachable) state where `("a","b")` and then
`("b","a")` were each established, `get_shared_key "a" "b"` and
`get_shared_key "b" "a"` return different key material. -/
theorem C5_order_counterexample :
    get_shared_key cfg60
        (establish_key (establish_key initQKD "a" "b" 4 sampleZero 0).2
          "b" "a" 4 sampleOnes 0).2 "a" "b" 0 ≠
      get_shared_key cfg60
        (establish_key (establish_key initQKD "a" "b" 4 sampleZero 0).2
          "b" "a" 4 sampleOnes 0).2 "b" "a" 0 := by
  decide

/-- C10: entity identifiers containing `':'` break the pair-key encoding.
`("a", "b:c")` and `("a:b", "c")` share the store key `"a:b:c"` — after
establishing both, the store has that single entry — and once such a pair is
due for refresh, `refresh_keys` hits the `ValueError` from unpacking the
three-part split of the pair key, an uncaught exception (modelled `none`). -/
theorem C10_colon_identifiers_break_refresh :
    pairKey "a" "b:c" = pairKey "a:b" "c" ∧
    ((establish_key (establish_key initQKD "a" "b:c" 4 sampleZero 0).2 "a:b" "c" 4
        sampleOnes 0).2.keyStore.map Prod.fst = ["a:b:c"]) ∧
    refresh_keys cfg60 (establish_key initQKD "a" "b:c" 4 sampleZero 0).2 3601
      (fun _ => sampleOnes) = none := by
  refine ⟨by decide, by decide, by decide⟩

/-- After a dict insert of a binding whose public key did not occur in the
keystore, the `verify` scan finds exactly the inserted private key. -/
theorem findPrivByPk_dictInsert (ks : PQCKeystore) (eid pk sk : String)
    (h : findPrivByPk pk ks = none) :
    findPrivByPk pk (dictInsert eid (pk, sk) ks) = some sk := by
  induction ks with
  | nil => simp [dictInsert, findPrivByPk]
  | cons hd tl ih =>
    obtain ⟨q, p, s⟩ := hd
    unfold findPrivByPk at h
    by_cases hp : p = pk
    · simp [hp] at h
    · simp only [hp, if_false, if_neg hp] at h
      unfold dictInsert
      by_cases hq : q = eid
      · simp [hq, findPrivByPk]
      · simp [hq, findPrivByPk, hp, ih h]

/-- `verify` on a keystore extended with a fresh public key compares the
candidate signature against `sign` under the inserted private key. -/
theorem verify_dictInsert (ks : PQCKeystore) (eid pk sk : String) (d : List Nat) (s : String)
    (h : findPrivByPk pk ks = none) :
    verify (dictInsert eid (pk, sk) ks) d s pk = (s == sign d sk) := by
  unfold verify
  rw [findPrivByPk_dictInsert ks eid pk sk h]
  rfl

/-- C3: after `generate_keypair` stores a keypair whose public key was not
previously in the keystore, the genuine signature verifies, and `verify`
accepts exactly the signatures `sign` produces with the matching private key
for the presented data — so any other signature is rejected, and a signature
made for different data is rejected whenever the two SHA-512 signatures
differ (exhibiting equal signatures for different data would be a SHA-512
collision). -/
theorem C3_sign_verify (ks0 : PQCKeystore) (eid : String) (rand : List Nat)
    (data : List Nat)
    (hfresh : findPrivByPk (generate_keypair ks0 eid rand).1.1 ks0 = none) :
    verify (generate_keypair ks0 eid rand).2 data
        (sign data (generate_keypair ks0 eid rand).1.2)
        (generate_keypair ks0 eid rand).1.1 = true ∧
    ∀ d s,
      (verify (generate_keypair ks0 eid rand).2 d s (generate_keypair ks0 eid rand).1.1 = true)
        ↔ s = sign d (generate_keypair ks0 eid rand).1.2 := by
  have hv : ∀ d s,
      verify (generate_keypair ks0 eid rand).2 d s (generate_keypair ks0 eid rand).1.1
        = (s == sign d (generate_keypair ks0 eid rand).1.2) :=
    fun d s => verify_dictInsert ks0 eid _ _ d s hfresh
  constructor
  · rw [hv]
    exact beq_self_eq_true _
  · intro d s
    rw [hv]
    exact beq_iff_eq

/-- Witness for C3: entity `"a"`, private key from random byte `0x00`, data
`[0x01]`, starting from the empty keystore (freshness is immediate). -/
theorem C3_sign_verify_witness :
    findPrivByPk (generate_keypair [] "a" [0]).1.1 [] = none ∧
    (verify (generate_keypair [] "a" [0]).2 [1]
        (sign [1] (generate_keypair [] "a" [0]).1.2) (generate_keypair [] "a" [0]).1.1 = true ∧
      ∀ d s,
        (verify (generate_keypair [] "a" [0]).2 d s (generate_keypair [] "a" [0]).1.1 = true)
          ↔ s = sign d (generate_keypair [] "a" [0]).1.2) :=
  ⟨rfl, C3_sign_verify [] "a" [0] [1] rfl⟩

/-- C6: for a stored pair whose last-refresh timestamp equals the record's
establishment time (as `establish_key` always arranges), `get_shared_key`
returns the stored material exactly when `now - established_at ≤
refresh_interval` — the boundary itself is still retrievable — and reports
absence (`none`, not an error) as soon as the bound is strictly exceeded. -/
theorem C6_expiry_boundary (cfg : QKDConfig) (st : QKDState) (a b : String) (now : Int)
    (r : KeyRecord)
    (hrec : dictLookup (pairKey a b) st.keyStore = some r)
    (hlr : dictLookup (pairKey a b) st.lastRefresh = some r.establishedAt) :
    get_shared_key cfg st a b now =
      if now - r.establishedAt ≤ cfg.refreshInterval then some r.key else none := by
  simp only [get_shared_key, hrec, hlr, Option.isSome_some, if_true, Option.map_some]
  split_ifs with h1 h2 <;> first | rfl | omega

/-- Witness for C6, on both sides of the boundary: at `now = 3700` the record
established at 100 is exactly at the bound (retrievable); the theorem applied
at `now = 3700` and `now = 3701` gives the two announced results. -/
theorem C6_expiry_boundary_witness :
    get_shared_key cfg60 stW "a" "b" 3700 = some "beef" ∧
    get_shared_key cfg60 stW "a" "b" 3701 = none := by
  have h1 := C6_expiry_boundary cfg60 stW "a" "b" 3700 recW (by decide) (by decide)
  have h2 := C6_expiry_boundary cfg60 stW "a" "b" 3701 recW (by decide) (by decide)
  rw [if_pos (by decide)] at h1
  rw [if_neg (by decide)] at h2
  exact ⟨h1, h2⟩

/-- Keys present after a dict insert: the inserted key and the old keys. -/
theorem dictInsert_mem_keys {α : Type} (k : String) (v : α) (l : List (String × α))
    (x : String) :
    x ∈ (dictInsert k v l).map Prod.fst ↔ x = k ∨ x ∈ l.map Prod.fst := by
  induction l with
  | nil => simp [dictInsert]
  | cons hd tl ih =>
    obtain ⟨q, w⟩ := hd
    by_cases hq : q = k
    · subst hq
      simp [dictInsert]
    · simp [dictInsert, hq, ih]
      tauto

/-- A dict insert preserves key uniqueness. -/
theorem dictInsert_keys_nodup {α : Type} (k : String) (v : α) (l : List (String × α))
    (h : (l.map Prod.fst).Nodup) : ((dictInsert k v l).map Prod.fst).Nodup := by
  induction l with
  | nil => simp [dictInsert]
  | cons hd tl ih =>
    obtain ⟨q, w⟩ := hd
    simp only [List.map_cons, List.nodup_cons] at h
    obtain ⟨hq1, hq2⟩ := h
    by_cases hq : q = k
    · simp only [dictInsert, if_pos hq, List.map_cons, List.nodup_cons]
      exact ⟨hq ▸ hq1, hq2⟩
    · simp only [dictInsert, if_neg hq, List.map_cons, List.nodup_cons]
      refine ⟨?_, ih hq2⟩
      rw [dictInsert_mem_keys]
      rintro (rfl | hx)
      · exact hq rfl
      · exact hq1 hx

/-- Looking up the freshly inserted key returns the inserted value. -/
theorem dictLookup_dictInsert_self {α : Type} (k : String) (v : α)
    (l : List (String × α)) : dictLookup k (dictInsert k v l) = some v := by
  induction l with
  | nil => simp [dictInsert, dictLookup]
  | cons hd tl ih =>
    obtain ⟨q, w⟩ := hd
    by_cases hq : q = k
    · simp [dictInsert, dictLookup, hq]
    · simp [dictInsert, dictLookup, hq, ih]

/-- Every entry after a dict insert is the inserted binding or an old one. -/
theorem dictInsert_mem {α : Type} {p : String × α} {k : String} {v : α}
    {l : List (String × α)} (h : p ∈ dictInsert k v l) : p = (k, v) ∨ p ∈ l := by
  induction l with
  | nil => simpa [dictInsert] using h
  | cons hd tl ih =>
    obtain ⟨q, w⟩ := hd
    by_cases hq : q = k
    · simp only [dictInsert, if_pos hq, List.mem_cons] at h
      tauto
    · simp only [dictInsert, if_neg hq, List.mem_cons] at h
      rcases h with h | h
      · right
        simp [h]
      · rcases ih h with h2 | h2
        · exact Or.inl h2
        · exact Or.inr (List.mem_cons_of_mem _ h2)

/-- A successful dict lookup is an entry of the list. -/
theorem dictLookup_mem {α : Type} {k : String} {v : α} :
    ∀ {l : List (String × α)}, dictLookup k l = some v → (k, v) ∈ l := by
  intro l
  induction l with
  | nil => intro h; simp [dictLookup] at h
  | cons hd tl ih =>
    obtain ⟨q, w⟩ := hd
    intro h
    unfold dictLookup at h
    by_cases hq : q = k
    · simp only [if_pos hq, Option.some_inj] at h
      subst hq
      subst h
      exact List.mem_cons_self _ _
    · simp only [if_neg hq] at h
      exact List.mem_cons_of_mem _ (ih h)

/-- With unique keys, at most one entry matches a given key. -/
theorem filter_key_length_le_one {α : Type} (l : List (String × α)) (k : String)
    (h : (l.map Prod.fst).Nodup) :
    (l.filter (fun p => p.1 == k)).length ≤ 1 := by
  induction l with
  | nil => simp
  | cons hd tl ih =>
    obtain ⟨q, w⟩ := hd
    simp only [List.map_cons, List.nodup_cons] at h
    obtain ⟨hq1, hq2⟩ := h
    by_cases hq : q = k
    · subst hq
      have hnil : tl.filter (fun p => p.1 == q) = [] := by
        rw [List.filter_eq_nil_iff]
        intro p hp
        simp only [beq_iff_eq]
        intro hpk
        exact hq1 (hpk ▸ List.mem_map_of_mem Prod.fst hp)
      simp [List.filter_cons, hnil]
    · have hfalse : ((q, w).1 == k) = false := by
        simp [hq]
      simp only [List.filter_cons, hfalse, if_false]
      exact ih hq2

/-- The state a call to `establish_key` returns: unchanged on abort or
exception, else both maps extended under the ordered pair key. -/
theorem establish_key_state_cases (st : QKDState) (e1 e2 : String) (bitLength : Nat)
    (s : ChannelSample) (now : Int) :
    (establish_key st e1 e2 bitLength s now).2 = st ∨
    (establish_key st e1 e2 bitLength s now).2 =
      ⟨dictInsert (pairKey e1 e2) (builtRecord e1 e2 bitLength s now) st.keyStore,
       dictInsert (pairKey e1 e2) now st.lastRefresh⟩ := by
  unfold establish_key
  by_cases herr : s.errRate > mkRat 15 100
  · left
    simp [herr]
  · by_cases hbl : bitLength = 0
    · left
      simp [herr, hbl]
    · right
      simp [herr, hbl]

/-- A successful `establish_key` returns the key id and the extended state. -/
theorem establish_key_success (st : QKDState) (e1 e2 : String) (bitLength : Nat)
    (s : ChannelSample) (now : Int) (herr : ¬ s.errRate > mkRat 15 100)
    (h0 : bitLength ≠ 0) :
    establish_key st e1 e2 bitLength s now =
      (keyIdOf e1 e2 s,
       ⟨dictInsert (pairKey e1 e2) (builtRecord e1 e2 bitLength s now) st.keyStore,
        dictInsert (pairKey e1 e2) now st.lastRefresh⟩) := by
  simp [establish_key, herr, h0]

/-- Induction principle for reachable KDP states: a property holding in the
fresh state and preserved by every `establish_key` step with validly drawn
randomness holds in every reachable state (a successful `refresh_keys` is a
sequence of such steps). -/
theorem reachable_ind {cfg : QKDConfig} {P : QKDState → Prop}
    (hinit : P initQKD)
    (hstep : ∀ st e1 e2 bl s now, ValidErrRate s → P st →
      P (establish_key st e1 e2 bl s now).2) :
    ∀ st, Reachable cfg st → P st := by
  have hone : ∀ (now : Int) (s : ChannelSample) (k : String) (st st2 : QKDState),
      ValidErrRate s → P st → refreshOne now s st k = some st2 → P st2 := by
    intro now s k st st2 hv hp h
    unfold refreshOne at h
    split at h
    · split at h
      · injection h with h
        exact h ▸ hstep _ _ _ _ _ _ hv hp
      · exact absurd h (by simp)
    · exact absurd h (by simp)
  have hlist : ∀ (now : Int) (oracle : Nat → ChannelSample),
      (∀ j, ValidErrRate (oracle j)) → ∀ (ks : List String) (i : Nat) (st st2 : QKDState),
      P st → refreshList now oracle ks i st = some st2 → P st2 := by
    intro now oracle hor ks
    induction ks with
    | nil =>
      intro i st st2 hp h
      unfold refreshList at h
      injection h with h
      exact h ▸ hp
    | cons k ks ih =>
      intro i st st2 hp h
      unfold refreshList at h
      split at h
      · exact ih _ _ _ (hone _ _ _ _ _ (hor i) hp (by assumption)) h
      · exact absurd h (by simp)
  intro st h
  induction h with
  | init => exact hinit
  | establish h hv ih => exact hstep _ _ _ _ _ _ hv ih
  | refresh h hor heq ih =>
    exact hlist _ _ hor _ _ _ _ ih heq

/-- The key-store keys are pairwise distinct in every reachable state. -/
theorem reachable_keyStore_nodup {cfg : QKDConfig} {st : QKDState}
    (h : Reachable cfg st) : (st.keyStore.map Prod.fst).Nodup := by
  refine reachable_ind (P := fun st => (st.keyStore.map Prod.fst).Nodup) ?_ ?_ st h
  · simp [initQKD]
  · intro st e1 e2 bl s now hv hp
    rcases establish_key_state_cases st e1 e2 bl s now with he | he
    · rw [he]
      exact hp
    · rw [he]
      exact dictInsert_keys_nodup _ _ _ hp

/-- C4 (amended): in every reachable state the key store holds at most one
record per *ordered* pair key — `establish_key` keys the store by the ordered
string `"e1:e2"`, so the store is a proper map on ordered pairs. The
unordered-pair version of the invariant is refuted by
`C4_unordered_pair_counterexample`. -/
theorem C4_ordered_pair_at_most_one (cfg : QKDConfig) (st : QKDState)
    (h : Reachable cfg st) (a b : String) :
    (st.keyStore.filter (fun p => p.1 == pairKey a b)).length ≤ 1 :=
  filter_key_length_le_one _ _ (reachable_keyStore_nodup h)

/-- Witness for C4 (amended) in the reachable state with one established
pair. -/
theorem C4_ordered_pair_at_most_one_witness :
    ((establish_key initQKD "a" "b" 4 sampleZero 0).2.keyStore.filter
      (fun p => p.1 == pairKey "a" "b")).length ≤ 1 :=
  C4_ordered_pair_at_most_one cfg60 _
    (Reachable.establish Reachable.init ⟨by decide, by decide⟩) "a" "b"

/-- C5 (amended): whenever the two orderings of a pair do not name two
distinct records simultaneously present in the store — in particular whenever
the pair was only ever established in one orientation — `get_shared_key` is
symmetric in its two entity arguments. The unrestricted claim is refuted by
`C5_order_counterexample`. -/
theorem C5_get_shared_key_symmetric (cfg : QKDConfig) (st : QKDState) (a b : String)
    (now : Int)
    (h : (dictLookup (pairKey a b) st.keyStore).isSome = true →
      (dictLookup (pairKey b a) st.keyStore).isSome = true → pairKey a b = pairKey b a) :
    get_shared_key cfg st a b now = get_shared_key cfg st b a now := by
  unfold get_shared_key
  cases h1 : (dictLookup (pairKey a b) st.keyStore).isSome <;>
    cases h2 : (dictLookup (pairKey b a) st.keyStore).isSome
  · simp [h1, h2]
  · simp [h1, h2]
  · simp [h1, h2]
  · rw [h h1 h2]

/-- Witness for C5 (amended): a single-orientation state, queried in both
orders. -/
theorem C5_get_shared_key_symmetric_witness :
    get_shared_key cfg60 (establish_key initQKD "a" "b" 4 sampleZero 0).2 "a" "b" 0 =
      get_shared_key cfg60 (establish_key initQKD "a" "b" 4 sampleZero 0).2 "b" "a" 0 :=
  C5_get_shared_key_symmetric cfg60 _ "a" "b" 0 (by decide)

/-- Every byte of a word rendering is below 256. -/
theorem word32Bytes_lt (x : Nat) : ∀ b ∈ word32Bytes x, b < 256 := by
  intro b hb
  simp only [word32Bytes, List.mem_cons, List.not_mem_nil, or_false] at hb
  rcases hb with rfl | rfl | rfl | rfl <;> exact Nat.mod_lt _ (by norm_num)

/-- A SHA-256 digest has exactly 32 bytes. -/
theorem sha256_length (m : List Nat) : (sha256 m).length = 32 := by
  simp [sha256, word32Bytes]

/-- Every byte of a SHA-256 digest is below 256. -/
theorem sha256_bytes_lt (m : List Nat) : ∀ b ∈ sha256 m, b < 256 := by
  intro b hb
  simp only [sha256, List.mem_append] at hb
  rcases hb with ((((((h | h) | h) | h) | h) | h) | h) | h <;> exact word32Bytes_lt _ _ h

/-- Hex digits of values below 16 are lower-case hex characters. -/
theorem hexDigitChar_isHex (n : Nat) (h : n < 16) : IsHexChar (hexDigitChar n) := by
  interval_cases n <;> decide

/-- `bytes.hex()` has two characters per byte. -/
theorem bytesToHexStr_data_length (bs : List Nat) :
    (bytesToHexStr bs).data.length = 2 * bs.length := by
  induction bs with
  | nil => rfl
  | cons b t ih =>
    simp only [bytesToHexStr, List.map_cons, List.flatten_cons, List.length_append,
      List.length_cons, List.length_nil, List.length_map] at ih ⊢
    omega

/-- `bytes.hex()` of genuine bytes consists of hex characters. -/
theorem bytesToHexStr_chars (bs : List Nat) (hb : ∀ b ∈ bs, b < 256) :
    ∀ c ∈ (bytesToHexStr bs).data, IsHexChar c := by
  intro c hc
  simp only [bytesToHexStr, List.mem_flatten, List.mem_map] at hc
  obtain ⟨l, ⟨b, hbmem, rfl⟩, hcl⟩ := hc
  have hb2 := hb b hbmem
  simp only [List.mem_cons, List.not_mem_nil, or_false] at hcl
  rcases hcl with rfl | rfl
  · exact hexDigitChar_isHex _ (Nat.div_lt_of_lt_mul (by omega))
  · exact hexDigitChar_isHex _ (Nat.mod_lt _ (by norm_num))

/-- A SHA-256 hexdigest has 64 characters. -/
theorem sha256hex_data_length (m : List Nat) : (sha256hex m).data.length = 64 := by
  show (bytesToHexStr (sha256 m)).data.length = 64
  rw [bytesToHexStr_data_length, sha256_length]

/-- The minimal hex rendering of `n < 16 ^ L` has at most `L` digits. -/
theorem natToHexAux_length_le (fuel n L : Nat) (h : n < 16 ^ L) :
    (natToHexAux fuel n).length ≤ L := by
  induction fuel generalizing n L with
  | zero => simp [natToHexAux]
  | succ fuel ih =>
    unfold natToHexAux
    by_cases h0 : n = 0
    · simp [h0]
    · cases L with
      | zero =>
        simp only [pow_zero, Nat.lt_one_iff] at h
        exact absurd h h0
      | succ L =>
        have hdiv : n / 16 < 16 ^ L := by
          apply Nat.div_lt_of_lt_mul
          rw [pow_succ] at h
          omega
        have := ih (n / 16) L hdiv
        simp only [h0, if_false, List.length_append, List.length_cons, List.length_nil]
        omega

/-- All minimal hex digits are hex characters. -/
theorem natToHexAux_chars (fuel : Nat) : ∀ n, ∀ c ∈ natToHexAux fuel n, IsHexChar c := by
  induction fuel with
  | zero => simp [natToHexAux]
  | succ fuel ih =>
    intro n c hc
    unfold natToHexAux at hc
    by_cases h0 : n = 0
    · simp [h0] at hc
    · simp only [h0, if_false, List.mem_append, List.mem_cons, List.not_mem_nil,
        or_false] at hc
      rcases hc with hc | rfl
      · exact ih _ _ hc
      · exact hexDigitChar_isHex _ (Nat.mod_lt _ (by norm_num))

/-- `hex(n)[2:]` of `n < 16 ^ L` (`L ≥ 1`) has at most `L` characters. -/
theorem natToHexMin_length_le (n L : Nat) (hL : 1 ≤ L) (h : n < 16 ^ L) :
    (natToHexMin n).data.length ≤ L := by
  unfold natToHexMin
  by_cases h0 : n = 0
  · simpa [h0] using hL
  · simpa [h0] using natToHexAux_length_le n n L h

/-- `hex(n)[2:]` consists of hex characters. -/
theorem natToHexMin_chars (n : Nat) : ∀ c ∈ (natToHexMin n).data, IsHexChar c := by
  unfold natToHexMin
  by_cases h0 : n = 0
  · intro c hc
    simp only [h0, if_true, if_pos h0] at hc
    have : c = '0' := by simpa using hc
    subst this
    decide
  · simpa [h0] using natToHexAux_chars n n

/-- `zfill` pads exactly to the requested length. -/
theorem zfill_length (s : String) (k : Nat) (h : s.data.length ≤ k) :
    (zfill s k).data.length = k := by
  simp only [zfill, List.length_append, List.length_replicate]
  omega

/-- `zfill` of a hex string is a hex string. -/
theorem zfill_chars (s : String) (k : Nat) (hs : ∀ c ∈ s.data, IsHexChar c) :
    ∀ c ∈ (zfill s k).data, IsHexChar c := by
  intro c hc
  simp only [zfill, List.mem_append, List.mem_replicate] at hc
  rcases hc with ⟨_, rfl⟩ | hc
  · decide
  · exact hs c hc

/-- The big-endian value of a bit list is below `2 ^ length`, generalized
over the accumulator. -/
theorem bitsFold_lt (l : List Bool) :
    ∀ a : Nat, l.foldl (fun a b => 2 * a + cond b 1 0) a < (a + 1) * 2 ^ l.length := by
  induction l with
  | nil => intro a; simp
  | cons b t ih =>
    intro a
    have h1 := ih (2 * a + cond b 1 0)
    have hc : cond b 1 0 ≤ 1 := by cases b <;> simp
    have h2 : (2 * a + cond b 1 0 + 1) * 2 ^ t.length ≤ ((a + 1) * 2) * 2 ^ t.length :=
      Nat.mul_le_mul_right _ (by omega)
    have h3 : ((a + 1) * 2) * 2 ^ t.length = (a + 1) * 2 ^ (t.length + 1) := by
      rw [pow_succ]
      ring
    simp only [List.foldl_cons, List.length_cons]
    exact lt_of_lt_of_le h1 (le_trans h2 (le_of_eq h3))

/-- `int(bit_string, 2) < 2 ^ len(bit_string)`. -/
theorem bitsToNat_lt (l : List Bool) : bitsToNat l < 2 ^ l.length := by
  simpa [bitsToNat] using bitsFold_lt l 0

/-- The final key always contains exactly `bit_length` bits (truncation or
padding). -/
theorem finalKeyBits_length (bitLength : Nat) (s : ChannelSample) :
    (finalKeyBits bitLength s).length = bitLength := by
  unfold finalKeyBits
  by_cases h : bitLength ≤ (siftedBits bitLength s).length
  · simp [h]
  · simp only [h, if_false, List.length_append, List.length_map, List.length_range]
    omega

/-- The stored key material has exactly `bit_length / 4` characters when
`4 ∣ bit_length ≠ 0`. -/
theorem hexKeyOf_length (bitLength : Nat) (s : ChannelSample) (hdiv : 4 ∣ bitLength)
    (h0 : bitLength ≠ 0) : (hexKeyOf bitLength s).data.length = bitLength / 4 := by
  unfold hexKeyOf
  obtain ⟨m, rfl⟩ := hdiv
  have hm : m ≠ 0 := by omega
  have hquot : 4 * m / 4 = m := by omega
  have hpow : (16 : Nat) ^ m = 2 ^ (4 * m) := by
    rw [show (16 : Nat) = 2 ^ 4 from rfl, ← pow_mul]
  have hlt : bitsToNat (finalKeyBits (4 * m) s) < 16 ^ m := by
    have h := bitsToNat_lt (finalKeyBits (4 * m) s)
    rw [finalKeyBits_length] at h
    rw [hpow]
    exact h
  rw [hquot]
  exact zfill_length _ _ (natToHexMin_length_le _ _ (by omega) hlt)

/-- The stored key material consists of hex characters. -/
theorem hexKeyOf_chars (bitLength : Nat) (s : ChannelSample) :
    ∀ c ∈ (hexKeyOf bitLength s).data, IsHexChar c :=
  zfill_chars _ _ (natToHexMin_chars _)

/-- The key id has exactly 16 characters. -/
theorem keyIdOf_length (e1 e2 : String) (s : ChannelSample) :
    (keyIdOf e1 e2 s).data.length = 16 := by
  show ((sha256hex (encodeStr (e1 ++ ":" ++ e2 ++ ":" ++ s.timeRepr))).data.take 16).length
      = 16
  rw [List.length_take, sha256hex_data_length]
  decide

/-- The key id consists of hex characters. -/
theorem keyIdOf_chars (e1 e2 : String) (s : ChannelSample) :
    ∀ c ∈ (keyIdOf e1 e2 s).data, IsHexChar c := by
  intro c hc
  simp only [keyIdOf] at hc
  exact bytesToHexStr_chars _ (sha256_bytes_lt _) c (List.take_subset _ _ hc)

/-- The key id is never the failure marker. -/
theorem keyIdOf_ne_empty (e1 e2 : String) (s : ChannelSample) : keyIdOf e1 e2 s ≠ "" := by
  intro h
  have hlen := keyIdOf_length e1 e2 s
  rw [h] at hlen
  simp at hlen

/-- C8: a successful `establish_key` with `4 ∣ bit_length` returns a key id
of exactly 16 lower-case hex characters, and stores under the ordered pair a
key-material string of exactly `bit_length / 4` hex characters — decoding to
exactly `bit_length` bits (64 hex digits for `bit_length = 256`). -/
theorem C8_key_and_id_lengths (st : QKDState) (e1 e2 : String) (bitLength : Nat)
    (s : ChannelSample) (now : Int) (hdiv : 4 ∣ bitLength)
    (hsucc : (establish_key st e1 e2 bitLength s now).1 ≠ "") :
    ((establish_key st e1 e2 bitLength s now).1.data.length = 16 ∧
      ∀ c ∈ (establish_key st e1 e2 bitLength s now).1.data, IsHexChar c) ∧
    ∃ r : KeyRecord,
      dictLookup (pairKey e1 e2) (establish_key st e1 e2 bitLength s now).2.keyStore
          = some r ∧
        r.key.data.length = bitLength / 4 ∧ ∀ c ∈ r.key.data, IsHexChar c := by
  by_cases herr : s.errRate > mkRat 15 100
  · exact absurd (by simp [establish_key, herr]) hsucc
  by_cases h0 : bitLength = 0
  · exact absurd (by simp [establish_key, herr, h0]) hsucc
  rw [establish_key_success st e1 e2 bitLength s now herr h0]
  exact ⟨⟨keyIdOf_length e1 e2 s, keyIdOf_chars e1 e2 s⟩,
    builtRecord e1 e2 bitLength s now,
    dictLookup_dictInsert_self _ _ _,
    hexKeyOf_length bitLength s hdiv h0,
    hexKeyOf_chars bitLength s⟩

/-- Witness for C8 at `bit_length = 8`. -/
theorem C8_key_and_id_lengths_witness :
    4 ∣ 8 ∧ (establish_key initQKD "a" "b" 8 sampleOnes 0).1 ≠ "" ∧
    (((establish_key initQKD "a" "b" 8 sampleOnes 0).1.data.length = 16 ∧
        ∀ c ∈ (establish_key initQKD "a" "b" 8 sampleOnes 0).1.data, IsHexChar c) ∧
      ∃ r : KeyRecord,
        dictLookup (pairKey "a" "b") (establish_key initQKD "a" "b" 8 sampleOnes 0).2.keyStore
            = some r ∧
          r.key.data.length = 8 / 4 ∧ ∀ c ∈ r.key.data, IsHexChar c) :=
  ⟨⟨2, rfl⟩, by decide,
    C8_key_and_id_lengths initQKD "a" "b" 8 sampleOnes 0 ⟨2, rfl⟩ (by decide)⟩

/-- Every record of a reachable key store carries an error rate at most 0.1 —
the upper end of `random.uniform(0.01, 0.1)`. -/
theorem reachable_errorRate_le {cfg : QKDConfig} {st : QKDState}
    (h : Reachable cfg st) : ∀ p ∈ st.keyStore, p.2.errorRate ≤ mkRat 1 10 := by
  refine reachable_ind (P := fun st => ∀ p ∈ st.keyStore, p.2.errorRate ≤ mkRat 1 10)
    ?_ ?_ st h
  · simp [initQKD]
  · intro st e1 e2 bl s now hv hp
    rcases establish_key_state_cases st e1 e2 bl s now with he | he
    · rw [he]
      exact hp
    · rw [he]
      intro p hpmem
      rcases dictInsert_mem hpmem with rfl | hmem
      · exact hv.2
      · exact hp p hmem

/-- C9: the simulated channel error rate lies in [0.01, 0.1], strictly below
both thresholds, so `establish_key` never takes the eavesdropping-abort
branch — with validly drawn randomness it succeeds for every `bit_length ≠ 0`
(it fails only on the `bit_length = 0` exception) — and in every reachable
state `check_for_eavesdropping` reports `detected = false`. -/
theorem C9_eavesdropping_never_detected :
    (∀ (st : QKDState) (e1 e2 : String) (bitLength : Nat) (s : ChannelSample) (now : Int),
      ValidErrRate s → bitLength ≠ 0 → (establish_key st e1 e2 bitLength s now).1 ≠ "") ∧
    ∀ (cfg : QKDConfig) (st : QKDState), Reachable cfg st →
      ∀ e1 e2, (check_for_eavesdropping st e1 e2).1 = false := by
  constructor
  · intro st e1 e2 bl s now hv h0
    have herr : ¬ s.errRate > mkRat 15 100 :=
      not_lt.mpr (le_trans hv.2 (le_of_lt (by decide)))
    rw [establish_key_success st e1 e2 bl s now herr h0]
    exact keyIdOf_ne_empty e1 e2 s
  · intro cfg st h e1 e2
    have hrate := reachable_errorRate_le h
    have hfound : ∀ r : KeyRecord, r.errorRate ≤ mkRat 1 10 →
        (if r.errorRate > mkRat 12 100 then
            (true, min (mkRat 1 1) ((r.errorRate - mkRat 12 100) * mkRat 10 1))
          else (false, min (mkRat 1 1) ((mkRat 12 100 - r.errorRate) * mkRat 10 1))).1
          = false := by
      intro r hle
      rw [if_neg (not_lt.mpr (le_trans hle (by decide)))]
    unfold check_for_eavesdropping
    rcases hl1 : dictLookup (pairKey e1 e2) st.keyStore with _ | r
    · rcases hl2 : dictLookup (pairKey e2 e1) st.keyStore with _ | r
      · simp
      · simpa using hfound r (hrate _ (dictLookup_mem hl2))
    · simpa using hfound r (hrate _ (dictLookup_mem hl1))

/-- Witness for C9: a concrete valid-randomness establishment succeeds, and
the resulting reachable state reports no eavesdropping. -/
theorem C9_eavesdropping_never_detected_witness :
    (establish_key initQKD "a" "b" 4 sampleZero 0).1 ≠ "" ∧
    (check_for_eavesdropping (establish_key initQKD "a" "b" 4 sampleZero 0).2 "a" "b").1
      = false :=
  ⟨C9_eavesdropping_never_detected.1 initQKD "a" "b" 4 sampleZero 0
      ⟨by decide, by decide⟩ (by decide),
    C9_eavesdropping_never_detected.2 cfg60 _
      (Reachable.establish Reachable.init ⟨by decide, by decide⟩) "a" "b"⟩

end HybridBC
